import Mathlib

/-!
Verification of the `SymbolFetcher` core of the stock_data_fetcher repository
(`stock_data_fetcher/symbol_fetcher.py`), against its natural-language
specification.

Modelling conventions (shallow embedding):

* JSON documents are modelled by the inductive type `Json`; numbers are
  modelled as integers (no claim depends on float behaviour).
* The filesystem tree under `data/symbols/` is modelled by the record `FS`,
  keyed by exchange name (for the three per-exchange files) and by output
  filename (for files under `symbols/all/`).  Structured (JSON) files store
  the parsed value (`JsonFile.val`); a file whose contents are not valid JSON
  — e.g. a file truncated by `open(..., 'w')` before an aborted write — is
  `JsonFile.corrupt`.  `json.dump`/`json.load` of the standard library are
  modelled as storing/retrieving the value itself.
* Line-oriented text files store their exact string contents
  (`TxtFile.content`); `TxtFile.unreadable` models a file that exists but
  whose `open` raises `OSError`.  Writes by the core are assumed to succeed
  (the `except OSError` branches around writes are then unreachable in the
  model and noted where they occur); newline translation of text mode is not
  modelled — every file the core itself writes is `\n`-delimited.
* Python exceptions that an operation can raise to its caller are made
  explicit: an operation returns `FS × Option PyExn`, the second component
  being `some e` exactly when the Python code would let exception `e` escape.
* The network is an oracle `net : String → Except RequestError Json` passed
  to the fetching operations; `RequestError` stands for
  `requests.RequestException`.
* Logging calls are side-effect free for every property below and are not
  modelled.
-/

/-- A JSON value, as produced by `response.json()` / `json.load`.
Numbers are modelled as integers. -/
inductive Json where
  | null
  | bool (b : Bool)
  | num (n : Int)
  | str (s : String)
  | arr (items : List Json)
  | obj (fields : List (String × Json))

/-- The Python exceptions relevant to the core's control flow. -/
inductive PyExn where
  | keyError (key : String)
  | typeError
  | osError
deriving DecidableEq

/-- First binding of a key in a Python dict (dicts cannot contain a key
twice, so the first binding is the binding). -/
def lookupField : List (String × Json) → String → Option Json
  | [], _ => none
  | (k, v) :: rest, key => if k = key then some v else lookupField rest key

/-- Embeds Python subscription `value[key]` with a string key: a `dict`
yields the binding or raises `KeyError`; any non-dict raises `TypeError`. -/
def jsonGet : Json → String → Except PyExn Json
  | .obj fields, key =>
    match lookupField fields key with
    | some v => .ok v
    | none => .error (.keyError key)
  | _, _ => .error .typeError

/-- Embeds Python truthiness (`if value:`) of a JSON value. -/
def pyTruthy : Json → Bool
  | .null => false
  | .bool b => b
  | .num n => n != 0
  | .str s => !(s.isEmpty)
  | .arr items => !(items.isEmpty)
  | .obj fields => !(fields.isEmpty)

/-- Embeds Python iteration `for x in value`: lists yield their elements,
dicts their keys, strings their characters; other values raise `TypeError`. -/
def pyIter : Json → Except PyExn (List Json)
  | .arr items => .ok items
  | .obj fields => .ok (fields.map fun p => .str p.1)
  | .str s => .ok (s.data.map fun c => .str (String.mk [c]))
  | _ => .error .typeError

/-- Embeds the list comprehension `[row['symbol'] for row in rows]`. -/
def extractSymbols : List Json → Except PyExn (List Json)
  | [] => .ok []
  | row :: rest => do
    let s ← jsonGet row "symbol"
    let tail ← extractSymbols rest
    .ok (s :: tail)

/-- Embeds `sep.join(values)` on a list of JSON values: every element must
be a string, otherwise `TypeError` is raised. -/
def pyJoin (sep : String) : List Json → Except PyExn String
  | [] => .ok ""
  | [.str s] => .ok s
  | .str s :: v :: rest => do
    let tail ← pyJoin sep (v :: rest)
    .ok (s ++ sep ++ tail)
  | _ => .error .typeError

/-- `'\n'.join` on a list of actual strings (the shape in which the core
joins symbol lists once all elements are known to be strings). -/
def joinLines : List String → String
  | [] => ""
  | [s] => s
  | s :: t :: rest => s ++ "\n" ++ joinLines (t :: rest)

/-- Characters stripped by Python `str.strip()` that can occur here. -/
def stripChars (cs : List Char) : List Char :=
  ((cs.dropWhile Char.isWhitespace).reverse.dropWhile Char.isWhitespace).reverse

/-- Embeds Python `str.strip()` (ASCII whitespace, which is all that occurs
in the data in scope). -/
def pyStrip (s : String) : String := String.mk (stripChars s.data)

/-- Helper for `pyFileLines`: splits a character stream into Python
text-file lines, each keeping its trailing newline. -/
def pyLinesAux : List Char → List Char → List String
  | [], acc => if acc.isEmpty then [] else [String.mk acc.reverse]
  | c :: rest, acc =>
    if c = '\n' then String.mk (acc.reverse ++ ['\n']) :: pyLinesAux rest []
    else pyLinesAux rest (c :: acc)

/-- Embeds iterating a Python text file (`for line in f`): the lines of the
contents, each line keeping its `'\n'` terminator, no empty final line. -/
def pyFileLines (s : String) : List String := pyLinesAux s.data []

/-- Collapses each `\r\n` pair into `\n`, so that the three line boundaries
`\n` / `\r\n` / `\r` of `str.splitlines()` become single characters. -/
def normNewlines : List Char → List Char
  | [] => []
  | '\r' :: '\n' :: rest => '\n' :: normNewlines rest
  | c :: rest => c :: normNewlines rest

/-- Helper for `pySplitlines`: split on single-character line boundaries. -/
def pySplitAux : List Char → List Char → List String
  | [], acc => if acc.isEmpty then [] else [String.mk acc.reverse]
  | c :: rest, acc =>
    if c = '\n' || c = '\r' then String.mk acc.reverse :: pySplitAux rest []
    else pySplitAux rest (c :: acc)

/-- Embeds Python `str.splitlines()` for `\n` / `\r\n` / `\r` boundaries
(the line boundaries that can occur in the files in scope). -/
def pySplitlines (s : String) : List String := pySplitAux (normNewlines s.data) []

/-- Contents of a structured (JSON) file on disk: a parsed value, or a file
that exists but does not parse (e.g. truncated by an aborted write). -/
inductive JsonFile where
  | val (j : Json)
  | corrupt

/-- Contents of a line-oriented text file on disk: its exact text, or a
file that exists but whose `open` for reading raises `OSError`. -/
inductive TxtFile where
  | content (text : String)
  | unreadable

/-- The filesystem state the core manipulates, keyed by exchange name
(resp. output filename), one field per file in the layout
`symbols/<e>/<e>_full_symbols.json`, `symbols/<e>/<e>_symbols.json`,
`symbols/<e>/<e>_symbols.txt`, `symbols/all/<output>`.  `none` means the
file does not exist. -/
structure FS where
  fullSymbols : String → Option JsonFile
  symbolsJson : String → Option JsonFile
  symbolsTxt : String → Option TxtFile
  allFiles : String → Option String

/-- Update one key of a string-keyed store. -/
def setKey {α : Type} (f : String → Option α) (k : String) (v : α) :
    String → Option α :=
  fun x => if x = k then some v else f x

/-- The filesystem with no files (fresh `data` directory). -/
def emptyFS : FS where
  fullSymbols := fun _ => none
  symbolsJson := fun _ => none
  symbolsTxt := fun _ => none
  allFiles := fun _ => none

/-- `requests.RequestException` (any transport error / non-success status,
surfaced by `raise_for_status`). -/
structure RequestError where
  message : String

/-- The fixed exchange list `self.exchanges` configured in `__init__`. -/
def exchanges : List String := ["nasdaq", "nyse", "amex"]

/-- Embeds `SymbolFetcher.list_exchanges`. -/
def list_exchanges : List String := exchanges

/-- Embeds `SymbolFetcher.fetch_exchange_symbols`: one request to the
screener URL for `exchange`; `requests.RequestException` is caught, logged
and absorbed, yielding `None`. -/
def fetch_exchange_symbols (net : String → Except RequestError Json)
    (exchange : String) : Option Json :=
  match net exchange with
  | .ok payload => some payload
  | .error _ => none

/-- Embeds `SymbolFetcher._save_symbols_list`: writes the symbols to
`<exchange>_symbols.json` and then `'\n'.join(symbols) + '\n'` to
`<exchange>_symbols.txt`.  The `txt` file is opened (truncated) before the
join is evaluated, so a `TypeError` from the join leaves it empty; its own
`except OSError` is unreachable in the model (writes succeed). -/
def save_symbols_list (fs : FS) (exchange : String) (symbols : List Json) :
    FS × Option PyExn :=
  let fs1 : FS :=
    { fs with symbolsJson := setKey fs.symbolsJson exchange (.val (.arr symbols)) }
  match pyJoin "\n" symbols with
  | .ok text =>
    ({ fs1 with
        symbolsTxt := setKey fs1.symbolsTxt exchange (.content (text ++ "\n")) },
      none)
  | .error e =>
    ({ fs1 with symbolsTxt := setKey fs1.symbolsTxt exchange (.content "") },
      some e)

/-- Embeds `SymbolFetcher.save_exchange_symbols`.  The full-symbols file is
opened with `'w'` (truncating it) before `symbols_data['data']['rows']` is
evaluated, so a `KeyError`/`TypeError` there leaves that file corrupt.  The
`except (OSError, json.JSONDecodeError)` clause does not catch
`KeyError`/`TypeError`, which therefore escape to the caller. -/
def save_exchange_symbols (fs : FS) (symbols_data : Json) (exchange : String) :
    FS × Option PyExn :=
  let fsTrunc : FS :=
    { fs with fullSymbols := setKey fs.fullSymbols exchange .corrupt }
  match jsonGet symbols_data "data" with
  | .error e => (fsTrunc, some e)
  | .ok d =>
    match jsonGet d "rows" with
    | .error e => (fsTrunc, some e)
    | .ok rowsVal =>
      let fs1 : FS :=
        { fs with fullSymbols := setKey fs.fullSymbols exchange (.val rowsVal) }
      match pyIter rowsVal with
      | .error e => (fs1, some e)
      | .ok rows =>
        match extractSymbols rows with
        | .error e => (fs1, some e)
        | .ok symbols =>
          if symbols.isEmpty then (fs1, none)
          else save_symbols_list fs1 exchange symbols

/-- Embeds reading one exchange's `<exchange>_symbols.txt` inside
`concatenate_and_deduplicate_symbols`: a missing file is skipped with a
warning, an unreadable one is skipped with an error log; otherwise every
line is read and stripped. -/
def readSymbolsFile (fs : FS) (exchange : String) : List String :=
  match fs.symbolsTxt exchange with
  | some (.content text) => (pyFileLines text).map pyStrip
  | some .unreadable => []
  | none => []

/-- All stripped lines gathered across the requested exchanges, in request
order (the multiset fed into the Python `set`). -/
def gatherSymbols (fs : FS) (exchanges : List String) : List String :=
  match exchanges with
  | [] => []
  | e :: rest => readSymbolsFile fs e ++ gatherSymbols fs rest

/-- Lexicographic (code-point) comparison of character lists: the order
Python uses to compare strings. -/
def charListLe : List Char → List Char → Bool
  | [], _ => true
  | _ :: _, [] => false
  | a :: as, b :: bs => if a = b then charListLe as bs else decide (a < b)

/-- Python string comparison `s <= t`: lexicographic by code point. -/
def strLe (s t : String) : Bool := charListLe s.data t.data

/-- `strLe` as a relation, for sortedness statements. -/
def symbolLe (s t : String) : Prop := strLe s t = true

instance : DecidableRel symbolLe := fun s t => decEq (strLe s t) true

/-- Embeds `sorted(all_symbols)` where `all_symbols` is the `set` of the
gathered strings: the ascending duplicate-free enumeration of the set's
elements under Python's lexicographic string order. -/
def sortedDedup (l : List String) : List String :=
  List.insertionSort symbolLe l.dedup

/-- Embeds `SymbolFetcher.concatenate_and_deduplicate_symbols`.  The
injectable `open_func` defaults to the built-in `open`; the model writes
through directly and its `except OSError` around the write is unreachable
(writes succeed), so the operation never raises. -/
def concatenate_and_deduplicate_symbols (fs : FS) (exchangeList : List String)
    (output_filename : String) : FS × Option PyExn :=
  let sorted_symbols := sortedDedup (gatherSymbols fs exchangeList)
  ({ fs with
      allFiles :=
        setKey fs.allFiles output_filename (joinLines sorted_symbols ++ "\n") },
    none)

/-- Helper for `fetch_and_save_all_symbols`: the `for exchange in
self.exchanges` loop.  An exception escaping `save_exchange_symbols` aborts
the loop (the Python `for` has no handler around the body). -/
def fetchSaveLoop (net : String → Except RequestError Json) (fs : FS) :
    List String → FS × Option PyExn
  | [] => (fs, none)
  | e :: rest =>
    match fetch_exchange_symbols net e with
    | some payload =>
      if pyTruthy payload then
        match save_exchange_symbols fs payload e with
        | (fs1, none) => fetchSaveLoop net fs1 rest
        | (fs1, some exn) => (fs1, some exn)
      else fetchSaveLoop net fs rest
    | none => fetchSaveLoop net fs rest

/-- Embeds `SymbolFetcher.fetch_and_save_all_symbols`: fetch-and-save each
known exchange (`if symbols_data:` guards the save with truthiness), then
merge all known exchanges into `all_symbols.txt`. -/
def fetch_and_save_all_symbols (net : String → Except RequestError Json)
    (fs : FS) : FS × Option PyExn :=
  match fetchSaveLoop net fs exchanges with
  | (fs1, none) => concatenate_and_deduplicate_symbols fs1 exchanges "all_symbols.txt"
  | (fs1, some exn) => (fs1, some exn)

/-- Embeds `SymbolFetcher.load_exchange_symbols`: a missing file yields
`None` with a warning; `OSError`/`json.JSONDecodeError` on read are caught
and yield `None`. -/
def load_exchange_symbols (fs : FS) (exchange : String) : Option Json :=
  match fs.fullSymbols exchange with
  | some (.val j) => some j
  | some .corrupt => none
  | none => none

/-- Embeds `SymbolFetcher.load_all_symbols`: reads
`symbols/all/all_symbols.txt` and returns `f.read().splitlines()`, or
`None` if the file is missing. -/
def load_all_symbols (fs : FS) : Option (List String) :=
  match fs.allFiles "all_symbols.txt" with
  | some text => some (pySplitlines text)
  | none => none

/-- An exchange whose line-oriented symbols file exists and is readable. -/
def txtAvailable (fs : FS) (e : String) : Bool :=
  match fs.symbolsTxt e with
  | some (.content _) => true
  | _ => false

/-- A symbol string containing no line boundary characters (every ticker
symbol in the data in scope). -/
def cleanSymbol (s : String) : Prop := ∀ c ∈ s.data, ¬(c = '\n' ∨ c = '\r')

instance (s : String) : Decidable (cleanSymbol s) := by
  unfold cleanSymbol; infer_instance

/-- Spec-side description of symbol extraction: the `symbol` fields of a
row list, defined when every row is an object whose `symbol` field is a
string. -/
def rowSymbolFields : List Json → Option (List String)
  | [] => some []
  | row :: rest =>
    match jsonGet row "symbol", rowSymbolFields rest with
    | .ok (.str s), some ss => some (s :: ss)
    | _, _ => none

/-- A payload of the shape the API documents: `{data: {rows: [...]}}` with
every row an object carrying a string `symbol` field. -/
def WellShapedPayload (j : Json) : Prop :=
  ∃ d rows ss, jsonGet j "data" = .ok d ∧ jsonGet d "rows" = .ok (.arr rows) ∧
    rowSymbolFields rows = some ss

/-- Rows of the well-formed example payload used by witnesses. -/
def goodRows : List Json :=
  [.obj [("symbol", .str "AAPL"), ("name", .str "Apple Inc.")],
   .obj [("symbol", .str "MSFT"), ("name", .str "Microsoft Corp.")]]

/-- A well-formed screener response with two rows. -/
def goodPayload : Json := .obj [("data", .obj [("rows", .arr goodRows)])]

/-- A well-formed screener response whose row list is empty. -/
def payloadEmptyRows : Json := .obj [("data", .obj [("rows", .arr [])])]

/-- State holding the spec example: nasdaq's line file `AAPL\nGOOGL`,
nyse's `GOOGL\nMSFT`. -/
def fsExample : FS :=
  { emptyFS with
      symbolsTxt :=
        setKey (setKey emptyFS.symbolsTxt "nasdaq" (.content "AAPL\nGOOGL\n"))
          "nyse" (.content "GOOGL\nMSFT\n") }

/-- State whose nasdaq line file holds two distinct lines that differ only
in surrounding whitespace. -/
def fsPadded : FS :=
  { emptyFS with
      symbolsTxt := setKey emptyFS.symbolsTxt "nasdaq" (.content " AAPL\nAAPL\n") }

/-- State whose nasdaq line file holds two lines differing only in case. -/
def fsCase : FS :=
  { emptyFS with
      symbolsTxt := setKey emptyFS.symbolsTxt "nasdaq" (.content "aapl\nAAPL\n") }

/-- A consistent state (line file derived from the structured file) about
to receive an empty listing. -/
def fsOld : FS :=
  { emptyFS with
      fullSymbols :=
        setKey emptyFS.fullSymbols "nasdaq"
          (.val (.arr [.obj [("symbol", .str "OLD")]])),
      symbolsTxt := setKey emptyFS.symbolsTxt "nasdaq" (.content "OLD\n") }

/-- Network oracle: nasdaq answers with the empty JSON object, every other
exchange's request fails. -/
def netEmptyObj : String → Except RequestError Json := fun e =>
  if e = "nasdaq" then .ok (.obj []) else .error ⟨"connection refused"⟩

/-- Network oracle: every request succeeds with the example payload. -/
def netGood : String → Except RequestError Json := fun _ => .ok goodPayload

/-- The spec's consistency invariant for one exchange: the line-oriented
file holds exactly the text derived from the structured full listing by
the extraction-join pipeline. -/
def derivedLineFile (fs : FS) (exchange : String) : Prop :=
  ∀ rowsVal, fs.fullSymbols exchange = some (.val rowsVal) →
    ∃ rows symbols text,
      pyIter rowsVal = .ok rows ∧ extractSymbols rows = .ok symbols ∧
      pyJoin "\n" symbols = .ok text ∧
      fs.symbolsTxt exchange = some (.content (text ++ "\n"))

/-- `charListLe` is total. -/
theorem charListLe_total : ∀ as bs : List Char,
    charListLe as bs = true ∨ charListLe bs as = true
  | [], _ => .inl rfl
  | _ :: _, [] => .inr rfl
  | a :: as, b :: bs => by
    by_cases h : a = b
    · subst h
      simpa only [charListLe, if_pos rfl] using charListLe_total as bs
    · rcases lt_or_gt_of_ne h with hlt | hgt
      · left; simp [charListLe, if_neg h, hlt]
      · right; simp [charListLe, if_neg (Ne.symm h), hgt]

/-- `charListLe` is transitive. -/
theorem charListLe_trans : ∀ as bs cs : List Char,
    charListLe as bs = true → charListLe bs cs = true → charListLe as cs = true
  | [], _, _, _, _ => rfl
  | _ :: _, [], _, h1, _ => by simp [charListLe] at h1
  | _ :: _, _ :: _, [], _, h2 => by simp [charListLe] at h2
  | a :: as, b :: bs, c :: cs, h1, h2 => by
    by_cases hab : a = b <;> by_cases hbc : b = c
    · subst hab; subst hbc
      simp only [charListLe, if_pos rfl] at h1 h2 ⊢
      exact charListLe_trans as bs cs h1 h2
    · subst hab
      simp only [charListLe, if_pos rfl] at h1
      simp only [charListLe, if_neg hbc, decide_eq_true_eq] at h2
      simp [charListLe, if_neg (ne_of_lt h2), h2]
    · subst hbc
      simp only [charListLe, if_neg hab, decide_eq_true_eq] at h1
      simp [charListLe, if_neg (ne_of_lt h1), h1]
    · simp only [charListLe, if_neg hab, decide_eq_true_eq] at h1
      simp only [charListLe, if_neg hbc, decide_eq_true_eq] at h2
      have hac := lt_trans h1 h2
      simp [charListLe, if_neg (ne_of_lt hac), hac]

instance : IsTotal String symbolLe :=
  ⟨fun s t => charListLe_total s.data t.data⟩

instance : IsTrans String symbolLe :=
  ⟨fun s t u => charListLe_trans s.data t.data u.data⟩

/-- The merged list is sorted in Python's lexicographic string order. -/
theorem sortedDedup_sorted (l : List String) : (sortedDedup l).Sorted symbolLe :=
  List.sorted_insertionSort symbolLe l.dedup

theorem sortedDedup_perm (l : List String) : List.Perm (sortedDedup l) l.dedup :=
  List.perm_insertionSort symbolLe l.dedup

/-- The merged list is duplicate-free. -/
theorem sortedDedup_nodup (l : List String) : (sortedDedup l).Nodup :=
  (sortedDedup_perm l).nodup_iff.mpr l.nodup_dedup

/-- Membership in the merged list is membership in the gathered multiset:
exact string equality and nothing coarser. -/
theorem mem_sortedDedup (l : List String) (s : String) :
    s ∈ sortedDedup l ↔ s ∈ l := by
  rw [(sortedDedup_perm l).mem_iff, List.mem_dedup]

/-- `'\n'.join` succeeds on a list of strings and agrees with `joinLines`. -/
theorem pyJoin_map_str : ∀ ss : List String,
    pyJoin "\n" (ss.map Json.str) = .ok (joinLines ss)
  | [] => rfl
  | [_] => rfl
  | s :: t :: rest => by
    have ih := pyJoin_map_str (t :: rest)
    simp only [List.map] at ih
    simp only [List.map, pyJoin, joinLines]
    rw [ih]
    rfl

/-- The extraction comprehension succeeds and yields exactly the `symbol`
fields when every row is an object with a string `symbol` field. -/
theorem extractSymbols_of_fields : ∀ (rows : List Json) (ss : List String),
    rowSymbolFields rows = some ss →
    extractSymbols rows = .ok (ss.map Json.str)
  | [], ss, h => by
    simp only [rowSymbolFields, Option.some.injEq] at h
    subst h; rfl
  | row :: rest, ss, h => by
    simp only [rowSymbolFields] at h
    cases hg : jsonGet row "symbol" with
    | error e => rw [hg] at h; simp at h
    | ok v =>
      rw [hg] at h
      cases v with
      | str s =>
        cases hr : rowSymbolFields rest with
        | none => rw [hr] at h; simp at h
        | some tail =>
          rw [hr] at h
          simp only [Option.some.injEq] at h
          subst h
          have ih := extractSymbols_of_fields rest tail hr
          simp only [extractSymbols, hg, ih, Except.bind]
          rfl
      | null => simp at h
      | bool b => simp at h
      | num n => simp at h
      | arr items => simp at h
      | obj fields => simp at h

/-- `normNewlines` is the identity on carriage-return-free text. -/
theorem normNewlines_no_cr : ∀ cs : List Char, '\r' ∉ cs → normNewlines cs = cs := by
  intro cs h
  induction cs with
  | nil => rfl
  | cons c rest ih =>
    have hc : c ≠ '\r' := fun he => h (he ▸ List.mem_cons_self c rest)
    have hrest : '\r' ∉ rest := fun hm => h (List.mem_cons_of_mem c hm)
    rw [normNewlines.eq_def]
    split
    · rename_i heq
      exact absurd heq (List.cons_ne_nil c rest)
    · rename_i heq
      exact absurd (List.cons.inj heq).1 hc
    · rename_i c' rest' heq
      obtain ⟨h1, h2⟩ := List.cons.inj heq
      subst h1; subst h2
      rw [ih hrest]

/-- Splitting consumes a clean chunk up to its `\n` boundary. -/
theorem pySplitAux_append : ∀ (cs : List Char) (acc rest : List Char),
    (∀ c ∈ cs, ¬(c = '\n' ∨ c = '\r')) →
    pySplitAux (cs ++ '\n' :: rest) acc =
      String.mk (acc.reverse ++ cs) :: pySplitAux rest []
  | [], acc, rest, _ => by
    simp [pySplitAux]
  | c :: cs, acc, rest, h => by
    have hc := h c (List.mem_cons_self c cs)
    have hcs : ∀ x ∈ cs, ¬(x = '\n' ∨ x = '\r') :=
      fun x hx => h x (List.mem_cons_of_mem c hx)
    have hb : (c = '\n' || c = '\r') = false := by
      simp only [Bool.or_eq_false_iff, decide_eq_false_iff_not]
      exact not_or.mp hc
    simp only [List.cons_append, List.append_eq, pySplitAux, hb,
      Bool.false_eq_true, if_false]
    rw [pySplitAux_append cs (c :: acc) rest hcs]
    simp

/-- Every character of a joined symbol list comes from a symbol or is the
`\n` separator. -/
theorem mem_joinLines : ∀ (ss : List String) (c : Char), c ∈ (joinLines ss).data →
    (∃ s ∈ ss, c ∈ s.data) ∨ c = '\n'
  | [], c, h => by simp [joinLines] at h
  | [s], c, h => .inl ⟨s, List.mem_singleton_self s, h⟩
  | s :: t :: rest, c, h => by
    simp only [joinLines, String.data_append] at h
    rcases List.mem_append.mp h with h1 | h2
    · rcases List.mem_append.mp h1 with ha | hb
      · exact .inl ⟨s, List.mem_cons_self s (t :: rest), ha⟩
      · right
        simpa using hb
    · rcases mem_joinLines (t :: rest) c h2 with ⟨u, hu, hc⟩ | hn
      · exact .inl ⟨u, List.mem_cons_of_mem s hu, hc⟩
      · exact .inr hn

/-- Round trip: splitting the file written as `'\n'.join(symbols) + '\n'`
recovers exactly the symbols, provided there is at least one and none
contains a line boundary. -/
theorem splitlines_joinLines : ∀ ss : List String, ss ≠ [] →
    (∀ s ∈ ss, cleanSymbol s) →
    pySplitlines (joinLines ss ++ "\n") = ss := by
  intro ss hne hclean
  have hnocr : '\r' ∉ (joinLines ss ++ "\n").data := by
    simp only [String.data_append]
    intro hmem
    rcases List.mem_append.mp hmem with h1 | h2
    · rcases mem_joinLines ss '\r' h1 with ⟨s, hs, hc⟩ | hn
      · exact hclean s hs '\r' hc (Or.inr rfl)
      · exact absurd hn (by decide)
    · simp at h2
  unfold pySplitlines
  rw [normNewlines_no_cr _ hnocr]
  clear hnocr
  induction ss with
  | nil => exact absurd rfl hne
  | cons s rest ih =>
    cases rest with
    | nil =>
      have hs := hclean s (List.mem_singleton_self s)
      have : (joinLines [s] ++ "\n").data = s.data ++ '\n' :: [] := by
        simp [joinLines, String.data_append]
      rw [this, pySplitAux_append s.data [] [] hs]
      simp [pySplitAux]
    | cons t rest2 =>
      have hs := hclean s (List.mem_cons_self s (t :: rest2))
      have hrest : ∀ x ∈ t :: rest2, cleanSymbol x :=
        fun x hx => hclean x (List.mem_cons_of_mem s hx)
      have hdata : (joinLines (s :: t :: rest2) ++ "\n").data =
          s.data ++ '\n' :: (joinLines (t :: rest2) ++ "\n").data := by
        simp [joinLines, String.data_append]
      rw [hdata, pySplitAux_append s.data [] _ hs]
      rw [ih (List.cons_ne_nil t rest2) hrest]
      simp

/-- `_save_symbols_list` never touches the full-symbols files. -/
theorem save_symbols_list_fullSymbols (fs : FS) (exchange : String)
    (symbols : List Json) :
    (save_symbols_list fs exchange symbols).1.fullSymbols = fs.fullSymbols := by
  unfold save_symbols_list
  split <;> rfl

/-- `_save_symbols_list` never touches the merged-output files. -/
theorem save_symbols_list_allFiles (fs : FS) (exchange : String)
    (symbols : List Json) :
    (save_symbols_list fs exchange symbols).1.allFiles = fs.allFiles := by
  unfold save_symbols_list
  split <;> rfl

/-- `_save_symbols_list` on a list of strings raises nothing. -/
theorem save_symbols_list_snd_ok (fs : FS) (exchange : String) (ss : List String) :
    (save_symbols_list fs exchange (ss.map Json.str)).2 = none := by
  unfold save_symbols_list
  rw [pyJoin_map_str]

/-- `_save_symbols_list` on a list of strings writes the joined text file. -/
theorem save_symbols_list_txt (fs : FS) (exchange : String) (ss : List String) :
    (save_symbols_list fs exchange (ss.map Json.str)).1.symbolsTxt exchange =
      some (.content (joinLines ss ++ "\n")) := by
  unfold save_symbols_list
  rw [pyJoin_map_str]
  simp [setKey]

/-- `_save_symbols_list` leaves other exchanges' text files alone. -/
theorem save_symbols_list_txt_ne (fs : FS) (exchange : String)
    (symbols : List Json) (e : String) (h : e ≠ exchange) :
    (save_symbols_list fs exchange symbols).1.symbolsTxt e = fs.symbolsTxt e := by
  unfold save_symbols_list
  split <;> simp [setKey, h]

/-- Once the payload has the `data.rows` structure, `save_exchange_symbols`
reduces to: write the full file, then extract and branch. -/
theorem save_exchange_symbols_shape (fs : FS) (payload : Json) (exchange : String)
    (d : Json) (rows : List Json)
    (hd : jsonGet payload "data" = .ok d)
    (hr : jsonGet d "rows" = .ok (.arr rows)) :
    save_exchange_symbols fs payload exchange =
      (match extractSymbols rows with
       | .error e =>
         ({ fs with fullSymbols := setKey fs.fullSymbols exchange (.val (.arr rows)) },
           some e)
       | .ok symbols =>
         if symbols.isEmpty then
           ({ fs with fullSymbols := setKey fs.fullSymbols exchange (.val (.arr rows)) },
             none)
         else
           save_symbols_list
             { fs with fullSymbols := setKey fs.fullSymbols exchange (.val (.arr rows)) }
             exchange symbols) := by
  simp only [save_exchange_symbols, hd, hr, pyIter]

/-- With the `data.rows` structure present, the full-symbols file ends up
holding exactly the row sequence — whatever happens afterwards. -/
theorem save_exchange_symbols_full (fs : FS) (payload : Json) (exchange : String)
    (d : Json) (rows : List Json)
    (hd : jsonGet payload "data" = .ok d)
    (hr : jsonGet d "rows" = .ok (.arr rows)) :
    (save_exchange_symbols fs payload exchange).1.fullSymbols exchange =
      some (.val (.arr rows)) := by
  rw [save_exchange_symbols_shape fs payload exchange d rows hd hr]
  cases hex : extractSymbols rows with
  | error e => simp [setKey]
  | ok symbols =>
    by_cases hempty : symbols.isEmpty <;>
      simp [hempty, setKey, save_symbols_list_fullSymbols]

/-- With a well-shaped payload (rows all objects with string `symbol`
fields), `save_exchange_symbols` raises nothing. -/
theorem save_exchange_symbols_ok (fs : FS) (payload : Json) (exchange : String)
    (d : Json) (rows : List Json) (ss : List String)
    (hd : jsonGet payload "data" = .ok d)
    (hr : jsonGet d "rows" = .ok (.arr rows))
    (hs : rowSymbolFields rows = some ss) :
    (save_exchange_symbols fs payload exchange).2 = none := by
  rw [save_exchange_symbols_shape fs payload exchange d rows hd hr,
    extractSymbols_of_fields rows ss hs]
  by_cases hempty : (ss.map Json.str).isEmpty <;>
    simp [hempty, save_symbols_list_snd_ok]

/-- With a well-shaped payload holding at least one row, the exchange's
line-oriented file ends up holding the joined symbol fields. -/
theorem save_exchange_symbols_txt (fs : FS) (payload : Json) (exchange : String)
    (d : Json) (rows : List Json) (ss : List String)
    (hd : jsonGet payload "data" = .ok d)
    (hr : jsonGet d "rows" = .ok (.arr rows))
    (hs : rowSymbolFields rows = some ss)
    (hne : ss ≠ []) :
    (save_exchange_symbols fs payload exchange).1.symbolsTxt exchange =
      some (.content (joinLines ss ++ "\n")) := by
  rw [save_exchange_symbols_shape fs payload exchange d rows hd hr,
    extractSymbols_of_fields rows ss hs]
  have hempty : (ss.map Json.str).isEmpty = false := by
    cases ss with
    | nil => exact absurd rfl hne
    | cons a l => rfl
  simp only [hempty, Bool.false_eq_true, if_false]
  exact save_symbols_list_txt _ _ _

/-- With a well-shaped empty listing, the exchange's line-oriented file is
left exactly as it was (the write is skipped with a warning). -/
theorem save_exchange_symbols_txt_empty (fs : FS) (payload : Json)
    (exchange : String) (d : Json)
    (hd : jsonGet payload "data" = .ok d)
    (hr : jsonGet d "rows" = .ok (.arr [])) :
    (save_exchange_symbols fs payload exchange).1.symbolsTxt = fs.symbolsTxt := by
  rw [save_exchange_symbols_shape fs payload exchange d [] hd hr]
  rfl

/-- `save_exchange_symbols` never touches the merged-output files. -/
theorem save_exchange_symbols_allFiles (fs : FS) (payload : Json)
    (exchange : String) :
    (save_exchange_symbols fs payload exchange).1.allFiles = fs.allFiles := by
  cases h1 : jsonGet payload "data" with
  | error e => simp [save_exchange_symbols, h1]
  | ok d =>
    cases h2 : jsonGet d "rows" with
    | error e => simp [save_exchange_symbols, h1, h2]
    | ok rv =>
      cases h3 : pyIter rv with
      | error e => simp [save_exchange_symbols, h1, h2, h3]
      | ok rows =>
        cases h4 : extractSymbols rows with
        | error e => simp [save_exchange_symbols, h1, h2, h3, h4]
        | ok symbols =>
          by_cases h5 : symbols.isEmpty <;>
            simp [save_exchange_symbols, h1, h2, h3, h4, h5,
              save_symbols_list_allFiles]

/-- `save_exchange_symbols` leaves other exchanges' full-symbols files
alone. -/
theorem save_exchange_symbols_full_ne (fs : FS) (payload : Json)
    (exchange e : String) (h : e ≠ exchange) :
    (save_exchange_symbols fs payload exchange).1.fullSymbols e =
      fs.fullSymbols e := by
  cases h1 : jsonGet payload "data" with
  | error e2 => simp [save_exchange_symbols, h1, setKey, h]
  | ok d =>
    cases h2 : jsonGet d "rows" with
    | error e2 => simp [save_exchange_symbols, h1, h2, setKey, h]
    | ok rv =>
      cases h3 : pyIter rv with
      | error e2 => simp [save_exchange_symbols, h1, h2, h3, setKey, h]
      | ok rows =>
        cases h4 : extractSymbols rows with
        | error e2 => simp [save_exchange_symbols, h1, h2, h3, h4, setKey, h]
        | ok symbols =>
          by_cases h5 : symbols.isEmpty <;>
            simp [save_exchange_symbols, h1, h2, h3, h4, h5, setKey, h,
              save_symbols_list_fullSymbols]

/-- `save_exchange_symbols` leaves other exchanges' line-oriented files
alone. -/
theorem save_exchange_symbols_txt_ne (fs : FS) (payload : Json)
    (exchange e : String) (h : e ≠ exchange) :
    (save_exchange_symbols fs payload exchange).1.symbolsTxt e =
      fs.symbolsTxt e := by
  cases h1 : jsonGet payload "data" with
  | error e2 => simp [save_exchange_symbols, h1]
  | ok d =>
    cases h2 : jsonGet d "rows" with
    | error e2 => simp [save_exchange_symbols, h1, h2]
    | ok rv =>
      cases h3 : pyIter rv with
      | error e2 => simp [save_exchange_symbols, h1, h2, h3]
      | ok rows =>
        cases h4 : extractSymbols rows with
        | error e2 => simp [save_exchange_symbols, h1, h2, h3, h4]
        | ok symbols =>
          by_cases h5 : symbols.isEmpty <;>
            simp [save_exchange_symbols, h1, h2, h3, h4, h5,
              save_symbols_list_txt_ne _ _ _ _ h]

/-- The merge never raises: the only guarded operations are the per-file
reads (whose failures are absorbed) and the final write (assumed to
succeed). -/
theorem concat_snd (fs : FS) (exs : List String) (out : String) :
    (concatenate_and_deduplicate_symbols fs exs out).2 = none := rfl

/-- What the merge writes to the requested output file. -/
theorem concat_allFiles (fs : FS) (exs : List String) (out : String) :
    (concatenate_and_deduplicate_symbols fs exs out).1.allFiles out =
      some (joinLines (sortedDedup (gatherSymbols fs exs)) ++ "\n") := by
  simp [concatenate_and_deduplicate_symbols, setKey]

/-- An exchange whose file is missing or unreadable contributes nothing. -/
theorem readSymbolsFile_unavailable (fs : FS) (e : String)
    (h : txtAvailable fs e = false) : readSymbolsFile fs e = [] := by
  unfold readSymbolsFile
  unfold txtAvailable at h
  cases hf : fs.symbolsTxt e with
  | none => rfl
  | some tf =>
    cases tf with
    | content text => rw [hf] at h; simp at h
    | unreadable => rfl

/-- Gathering sees only the available exchanges. -/
theorem gatherSymbols_filter (fs : FS) : ∀ exs : List String,
    gatherSymbols fs (exs.filter fun e => txtAvailable fs e) =
      gatherSymbols fs exs := by
  intro exs
  induction exs with
  | nil => rfl
  | cons e rest ih =>
    by_cases h : txtAvailable fs e
    · rw [List.filter_cons_of_pos h]
      simp only [gatherSymbols, ih]
    · rw [List.filter_cons_of_neg (by simpa using h)]
      simp only [gatherSymbols, ih,
        readSymbolsFile_unavailable fs e (Bool.of_not_eq_true h)]
      simp

/-- A payload carrying a `data` key is a nonempty dict, hence truthy. -/
theorem pyTruthy_of_data (j d : Json) (h : jsonGet j "data" = .ok d) :
    pyTruthy j = true := by
  cases j with
  | obj fields =>
    cases fields with
    | nil => simp [jsonGet, lookupField] at h
    | cons p rest => rfl
  | null => simp [jsonGet] at h
  | bool b => simp [jsonGet] at h
  | num n => simp [jsonGet] at h
  | str s => simp [jsonGet] at h
  | arr items => simp [jsonGet] at h

/-- The batch loop never touches the merged-output files. -/
theorem fetchSaveLoop_allFiles (net : String → Except RequestError Json) :
    ∀ (exs : List String) (fs : FS),
    (fetchSaveLoop net fs exs).1.allFiles = fs.allFiles
  | [], _ => rfl
  | e :: rest, fs => by
    unfold fetchSaveLoop
    cases hf : fetch_exchange_symbols net e with
    | none => exact fetchSaveLoop_allFiles net rest fs
    | some payload =>
      by_cases ht : pyTruthy payload = true
      · simp only [ht, if_true]
        cases hs : save_exchange_symbols fs payload e with
        | mk fs1 exn =>
          have hall := save_exchange_symbols_allFiles fs payload e
          rw [hs] at hall
          cases exn with
          | none => rw [fetchSaveLoop_allFiles net rest fs1]; exact hall
          | some ex => exact hall
      · simp only [Bool.not_eq_true] at ht
        simp only [ht, Bool.false_eq_true, if_false]
        exact fetchSaveLoop_allFiles net rest fs

/-- An exchange the loop does not visit keeps all its files. -/
theorem fetchSaveLoop_frame (net : String → Except RequestError Json) :
    ∀ (exs : List String) (fs : FS) (e : String), e ∉ exs →
    (fetchSaveLoop net fs exs).1.fullSymbols e = fs.fullSymbols e ∧
    (fetchSaveLoop net fs exs).1.symbolsTxt e = fs.symbolsTxt e
  | [], _, _, _ => ⟨rfl, rfl⟩
  | e2 :: rest, fs, e, hmem => by
    have hne : e ≠ e2 := fun he => hmem (he ▸ List.mem_cons_self e2 rest)
    have hrest : e ∉ rest := fun hm => hmem (List.mem_cons_of_mem e2 hm)
    unfold fetchSaveLoop
    cases hf : fetch_exchange_symbols net e2 with
    | none => exact fetchSaveLoop_frame net rest fs e hrest
    | some payload =>
      by_cases ht : pyTruthy payload = true
      · simp only [ht, if_true]
        cases hs : save_exchange_symbols fs payload e2 with
        | mk fs1 exn =>
          have hfull := save_exchange_symbols_full_ne fs payload e2 e hne
          have htxt := save_exchange_symbols_txt_ne fs payload e2 e hne
          rw [hs] at hfull htxt
          cases exn with
          | none =>
            obtain ⟨ih1, ih2⟩ := fetchSaveLoop_frame net rest fs1 e hrest
            exact ⟨ih1.trans hfull, ih2.trans htxt⟩
          | some ex => exact ⟨hfull, htxt⟩
      · simp only [Bool.not_eq_true] at ht
        simp only [ht, Bool.false_eq_true, if_false]
        exact fetchSaveLoop_frame net rest fs e hrest

/-- When every successful fetch is well-shaped, the loop completes. -/
theorem fetchSaveLoop_ok (net : String → Except RequestError Json)
    (hnet : ∀ e j, net e = .ok j → WellShapedPayload j) :
    ∀ (exs : List String) (fs : FS), (fetchSaveLoop net fs exs).2 = none
  | [], _ => rfl
  | e :: rest, fs => by
    unfold fetchSaveLoop
    cases hn : net e with
    | error err => simp only [fetch_exchange_symbols, hn]; exact fetchSaveLoop_ok net hnet rest fs
    | ok payload =>
      obtain ⟨d, rows, ss, hd, hr, hs⟩ := hnet e payload hn
      simp only [fetch_exchange_symbols, hn, pyTruthy_of_data payload d hd, if_true]
      cases hsave : save_exchange_symbols fs payload e with
      | mk fs1 exn =>
        have hok := save_exchange_symbols_ok fs payload e d rows ss hd hr hs
        rw [hsave] at hok
        cases exn with
        | none => exact fetchSaveLoop_ok net hnet rest fs1
        | some ex => simp at hok

/-- When every successful fetch is well-shaped, a visited exchange whose
fetch succeeded ends up with its full-symbols file holding the payload's
rows. -/
theorem fetchSaveLoop_persists (net : String → Except RequestError Json)
    (hnet : ∀ e j, net e = .ok j → WellShapedPayload j) :
    ∀ (exs : List String) (fs : FS) (e : String), e ∈ exs → exs.Nodup →
    ∀ (j d : Json) (rows : List Json), net e = .ok j →
    jsonGet j "data" = .ok d → jsonGet d "rows" = .ok (.arr rows) →
    (fetchSaveLoop net fs exs).1.fullSymbols e = some (.val (.arr rows))
  | [], _, _, hmem, _, _, _, _, _, _, _ => absurd hmem (List.not_mem_nil _)
  | e2 :: rest, fs, e, hmem, hnodup, j, d, rows, hn, hd, hr => by
    rcases List.mem_cons.mp hmem with he | hm
    · subst he
      unfold fetchSaveLoop
      simp only [fetch_exchange_symbols, hn, pyTruthy_of_data j d hd, if_true]
      obtain ⟨d2, rows2, ss2, hd2, hr2, hs2⟩ := hnet e j hn
      cases hsave : save_exchange_symbols fs j e with
      | mk fs1 exn =>
        have hok := save_exchange_symbols_ok fs j e d2 rows2 ss2 hd2 hr2 hs2
        have hfull := save_exchange_symbols_full fs j e d rows hd hr
        rw [hsave] at hok hfull
        cases exn with
        | none =>
          have hnotin : e ∉ rest := (List.nodup_cons.mp hnodup).1
          rw [(fetchSaveLoop_frame net rest fs1 e hnotin).1]
          exact hfull
        | some ex => simp at hok
    · have hne : e ≠ e2 := fun he =>
        (List.nodup_cons.mp hnodup).1 (he ▸ hm)
      unfold fetchSaveLoop
      cases hn2 : net e2 with
      | error err =>
        simp only [fetch_exchange_symbols, hn2]
        exact fetchSaveLoop_persists net hnet rest fs e hm
          (List.nodup_cons.mp hnodup).2 j d rows hn hd hr
      | ok payload =>
        obtain ⟨d2, rows2, ss2, hd2, hr2, hs2⟩ := hnet e2 payload hn2
        simp only [fetch_exchange_symbols, hn2, pyTruthy_of_data payload d2 hd2,
          if_true]
        cases hsave : save_exchange_symbols fs payload e2 with
        | mk fs1 exn =>
          have hok := save_exchange_symbols_ok fs payload e2 d2 rows2 ss2 hd2 hr2 hs2
          rw [hsave] at hok
          cases exn with
          | none =>
            exact fetchSaveLoop_persists net hnet rest fs1 e hm
              (List.nodup_cons.mp hnodup).2 j d rows hn hd hr
          | some ex => simp at hok

/-- An exchange whose fetch fails keeps all its files, whoever else the
loop visits (provided the other saves complete). -/
theorem fetchSaveLoop_failed (net : String → Except RequestError Json) :
    ∀ (exs : List String) (fs : FS) (e : String) (err : RequestError),
    net e = .error err →
    (fetchSaveLoop net fs exs).1.fullSymbols e = fs.fullSymbols e ∧
    (fetchSaveLoop net fs exs).1.symbolsTxt e = fs.symbolsTxt e
  | [], _, _, _, _ => ⟨rfl, rfl⟩
  | e2 :: rest, fs, e, err, hn => by
    unfold fetchSaveLoop
    cases hn2 : net e2 with
    | error err2 =>
      simp only [fetch_exchange_symbols, hn2]
      exact fetchSaveLoop_failed net rest fs e err hn
    | ok payload =>
      have hne : e ≠ e2 := by
        intro he
        rw [he, hn2] at hn
        exact absurd hn (by simp)
      simp only [fetch_exchange_symbols, hn2]
      by_cases ht : pyTruthy payload = true
      · simp only [ht, if_true]
        cases hsave : save_exchange_symbols fs payload e2 with
        | mk fs1 exn =>
          have hfull := save_exchange_symbols_full_ne fs payload e2 e hne
          have htxt := save_exchange_symbols_txt_ne fs payload e2 e hne
          rw [hsave] at hfull htxt
          cases exn with
          | none =>
            obtain ⟨ih1, ih2⟩ := fetchSaveLoop_failed net rest fs1 e err hn
            exact ⟨ih1.trans hfull, ih2.trans htxt⟩
          | some ex => exact ⟨hfull, htxt⟩
      · simp only [Bool.not_eq_true] at ht
        simp only [ht, Bool.false_eq_true, if_false]
        exact fetchSaveLoop_failed net rest fs e err hn

/-- Only the empty row list has an empty symbol-field list. -/
theorem rowSymbolFields_nil (rows : List Json)
    (h : rowSymbolFields rows = some []) : rows = [] := by
  cases rows with
  | nil => rfl
  | cons r rest =>
    simp only [rowSymbolFields] at h
    split at h <;> simp_all

/-- C1: the claim that every core operation absorbs every failure is false:
on the payload `{}` (no `data` key), `save_exchange_symbols` raises
`KeyError('data')` to its caller — the `except (OSError, JSONDecodeError)`
clause does not catch it. -/
theorem C1_counterexample :
    (save_exchange_symbols emptyFS (Json.obj []) "nasdaq").2 =
      some (.keyError "data") := rfl

/-- C1 (amended): the merge absorbs all its failures and never raises, and
`save_exchange_symbols` returns normally for every payload of the expected
`{data: {rows: [...]}}` shape whose rows are objects with string `symbol`
fields; payloads outside that shape raise `KeyError`/`TypeError`. -/
theorem C1_amended :
    (∀ (fs : FS) (exs : List String) (out : String),
      (concatenate_and_deduplicate_symbols fs exs out).2 = none) ∧
    (∀ (fs : FS) (payload : Json) (exchange : String) (d : Json)
      (rows : List Json) (ss : List String),
      jsonGet payload "data" = .ok d →
      jsonGet d "rows" = .ok (.arr rows) →
      rowSymbolFields rows = some ss →
      (save_exchange_symbols fs payload exchange).2 = none) :=
  ⟨fun fs exs out => concat_snd fs exs out,
   fun fs payload exchange d rows ss hd hr hs =>
     save_exchange_symbols_ok fs payload exchange d rows ss hd hr hs⟩

/-- C1 witness: the amended theorem applied to a concrete merge and a
concrete well-shaped payload. -/
theorem C1_witness :
    (concatenate_and_deduplicate_symbols emptyFS ["nasdaq"] "all_symbols.txt").2 =
      none ∧
    (save_exchange_symbols emptyFS goodPayload "nasdaq").2 = none :=
  ⟨C1_amended.1 emptyFS ["nasdaq"] "all_symbols.txt",
   C1_amended.2 emptyFS goodPayload "nasdaq" _ _ ["AAPL", "MSFT"] rfl rfl rfl⟩

/-- C2: the claim that empty listings are persisted to the line-oriented
file is false: saving a listing with zero rows completes, yet no line
file is written at all — `if symbols:` skips `_save_symbols_list`. -/
theorem C2_counterexample :
    (save_exchange_symbols emptyFS payloadEmptyRows "nasdaq").2 = none ∧
    (save_exchange_symbols emptyFS payloadEmptyRows "nasdaq").1.symbolsTxt
        "nasdaq" = none :=
  ⟨rfl, rfl⟩

/-- C2 (amended): for every listing with at least one row (rows objects
with newline-free string `symbol` fields), the line-oriented file holds
exactly the `symbol` field of each row, in the original order, one symbol
per line with a trailing newline; a listing with zero symbols leaves the
line file untouched (the write is skipped with a warning). -/
theorem C2_amended : ∀ (fs : FS) (payload : Json) (exchange : String)
    (d : Json) (rows : List Json) (ss : List String),
    jsonGet payload "data" = .ok d →
    jsonGet d "rows" = .ok (.arr rows) →
    rowSymbolFields rows = some ss →
    (∀ s ∈ ss, cleanSymbol s) →
    (ss ≠ [] →
      ∃ text,
        (save_exchange_symbols fs payload exchange).1.symbolsTxt exchange =
          some (.content text) ∧
        text = joinLines ss ++ "\n" ∧
        pySplitlines text = ss) ∧
    (ss = [] →
      (save_exchange_symbols fs payload exchange).1.symbolsTxt exchange =
        fs.symbolsTxt exchange) := by
  intro fs payload exchange d rows ss hd hr hs hclean
  constructor
  · intro hne
    exact ⟨joinLines ss ++ "\n",
      save_exchange_symbols_txt fs payload exchange d rows ss hd hr hs hne,
      rfl, splitlines_joinLines ss hne hclean⟩
  · intro hnil
    subst hnil
    have hrows := rowSymbolFields_nil rows hs
    subst hrows
    rw [save_exchange_symbols_txt_empty fs payload exchange d hd hr]

/-- C2 witness: the amended theorem applied to the example payload. -/
theorem C2_witness :
    ∃ text,
      (save_exchange_symbols emptyFS goodPayload "nasdaq").1.symbolsTxt
          "nasdaq" = some (.content text) ∧
      text = joinLines ["AAPL", "MSFT"] ++ "\n" ∧
      pySplitlines text = ["AAPL", "MSFT"] :=
  (C2_amended emptyFS goodPayload "nasdaq" _ _ ["AAPL", "MSFT"] rfl rfl rfl
    (by decide)).1 (by decide)

/-- C3: the claimed invariant — after every completed operation the line
file is derived from the structured file's `symbol` fields — is false:
saving an empty listing over a consistent state completes normally, updates
the structured file to `[]`, and leaves the line file holding the previous
listing's symbols. -/
theorem C3_counterexample :
    (save_exchange_symbols fsOld payloadEmptyRows "nasdaq").2 = none ∧
    (save_exchange_symbols fsOld payloadEmptyRows "nasdaq").1.fullSymbols
        "nasdaq" = some (.val (.arr [])) ∧
    (save_exchange_symbols fsOld payloadEmptyRows "nasdaq").1.symbolsTxt
        "nasdaq" = some (.content "OLD\n") ∧
    ¬ derivedLineFile (save_exchange_symbols fsOld payloadEmptyRows "nasdaq").1
        "nasdaq" := by
  refine ⟨rfl, rfl, rfl, ?_⟩
  intro h
  obtain ⟨rows, symbols, text, h1, h2, h3, h4⟩ := h (.arr []) rfl
  simp only [pyIter, Except.ok.injEq] at h1
  subst h1
  simp only [extractSymbols, Except.ok.injEq] at h2
  subst h2
  simp only [pyJoin, Except.ok.injEq] at h3
  subst h3
  have : (save_exchange_symbols fsOld payloadEmptyRows "nasdaq").1.symbolsTxt
      "nasdaq" = some (.content "OLD\n") := rfl
  rw [this] at h4
  simp only [Option.some.injEq, TxtFile.content.injEq] at h4
  exact absurd h4 (by decide)

/-- C3 (amended): saving a well-shaped listing with at least one symbol
re-establishes the derivation of the line file from the structured file
for that exchange and leaves every other exchange's files unchanged; only
the zero-symbol case breaks the invariant. -/
theorem C3_amended : ∀ (fs : FS) (payload : Json) (exchange : String)
    (d : Json) (rows : List Json) (ss : List String),
    jsonGet payload "data" = .ok d →
    jsonGet d "rows" = .ok (.arr rows) →
    rowSymbolFields rows = some ss →
    ss ≠ [] →
    derivedLineFile (save_exchange_symbols fs payload exchange).1 exchange ∧
    ∀ e, e ≠ exchange →
      (save_exchange_symbols fs payload exchange).1.fullSymbols e =
        fs.fullSymbols e ∧
      (save_exchange_symbols fs payload exchange).1.symbolsTxt e =
        fs.symbolsTxt e := by
  intro fs payload exchange d rows ss hd hr hs hne
  constructor
  · intro rowsVal hfull
    rw [save_exchange_symbols_full fs payload exchange d rows hd hr] at hfull
    simp only [Option.some.injEq, JsonFile.val.injEq] at hfull
    subst hfull
    refine ⟨rows, ss.map Json.str, joinLines ss, rfl,
      extractSymbols_of_fields rows ss hs, pyJoin_map_str ss, ?_⟩
    exact save_exchange_symbols_txt fs payload exchange d rows ss hd hr hs hne
  · intro e he
    exact ⟨save_exchange_symbols_full_ne fs payload exchange e he,
      save_exchange_symbols_txt_ne fs payload exchange e he⟩

/-- C3 witness: the amended theorem applied to the example payload on the
empty state. -/
theorem C3_witness :
    derivedLineFile (save_exchange_symbols emptyFS goodPayload "nasdaq").1
        "nasdaq" ∧
    (save_exchange_symbols emptyFS goodPayload "nasdaq").1.symbolsTxt "nyse" =
      emptyFS.symbolsTxt "nyse" :=
  ⟨(C3_amended emptyFS goodPayload "nasdaq" _ _ ["AAPL", "MSFT"] rfl rfl rfl
      (by decide)).1,
   ((C3_amended emptyFS goodPayload "nasdaq" _ _ ["AAPL", "MSFT"] rfl rfl rfl
      (by decide)).2 "nyse" (by decide)).2⟩

/-- C4: persisting a payload of shape `{data: {rows: [...]}}` (rows JSON
objects) and then loading the structured listing returns exactly the
original row sequence — the full file is written before symbol extraction,
so this holds whatever the rows contain. -/
theorem C4_roundtrip : ∀ (fs : FS) (payload : Json) (exchange : String)
    (d : Json) (rows : List Json),
    jsonGet payload "data" = .ok d →
    jsonGet d "rows" = .ok (.arr rows) →
    (∀ r ∈ rows, ∃ fields, r = .obj fields) →
    load_exchange_symbols (save_exchange_symbols fs payload exchange).1
        exchange = some (.arr rows) := by
  intro fs payload exchange d rows hd hr _
  unfold load_exchange_symbols
  rw [save_exchange_symbols_full fs payload exchange d rows hd hr]

/-- C4 witness: round trip of the example payload. -/
theorem C4_witness :
    load_exchange_symbols (save_exchange_symbols emptyFS goodPayload
        "nasdaq").1 "nasdaq" = some (.arr goodRows) :=
  C4_roundtrip emptyFS goodPayload "nasdaq" _ goodRows rfl rfl
    (by
      intro r hr
      simp only [goodRows, List.mem_cons, List.not_mem_nil, or_false] at hr
      rcases hr with rfl | rfl
      · exact ⟨_, rfl⟩
      · exact ⟨_, rfl⟩)

/-- C5: when every requested exchange's line file is present, the merge
writes the file whose lines are a list that is sorted in Python's
lexicographic string order, duplicate-free, and contains exactly the
symbols read (strip-read lines) from those files; on the spec's example
(`AAPL\nGOOGL` and `GOOGL\nMSFT`) the output is `AAPL\nGOOGL\nMSFT\n`. -/
theorem C5_merge_sorted_union :
    (∀ (fs : FS) (exs : List String) (out : String),
      (∀ e ∈ exs, ∃ text, fs.symbolsTxt e = some (.content text)) →
      ∃ l,
        (concatenate_and_deduplicate_symbols fs exs out).1.allFiles out =
          some (joinLines l ++ "\n") ∧
        l.Sorted symbolLe ∧ l.Nodup ∧
        (∀ s, s ∈ l ↔ s ∈ gatherSymbols fs exs)) ∧
    (concatenate_and_deduplicate_symbols fsExample ["nasdaq", "nyse"]
        "all_symbols.txt").1.allFiles "all_symbols.txt" =
      some "AAPL\nGOOGL\nMSFT\n" := by
  constructor
  · intro fs exs out _
    exact ⟨sortedDedup (gatherSymbols fs exs), concat_allFiles fs exs out,
      sortedDedup_sorted _, sortedDedup_nodup _, mem_sortedDedup _⟩
  · decide

/-- C5 witness: the general part applied to the spec's example state. -/
theorem C5_witness :
    ∃ l,
      (concatenate_and_deduplicate_symbols fsExample ["nasdaq", "nyse"]
          "merged.txt").1.allFiles "merged.txt" =
        some (joinLines l ++ "\n") ∧
      l.Sorted symbolLe ∧ l.Nodup ∧
      (∀ s, s ∈ l ↔ s ∈ gatherSymbols fsExample ["nasdaq", "nyse"]) :=
  C5_merge_sorted_union.1 fsExample ["nasdaq", "nyse"] "merged.txt"
    (by
      intro e he
      simp only [List.mem_cons, List.not_mem_nil, or_false] at he
      rcases he with rfl | rfl
      · exact ⟨"AAPL\nGOOGL\n", rfl⟩
      · exact ⟨"GOOGL\nMSFT\n", rfl⟩)

/-- C6: the claim that lines are deduplicated by exact string equality is
false: the code strips each line first, so the two distinct lines
` AAPL` and `AAPL` collapse into the single output line `AAPL`. -/
theorem C6_counterexample :
    (" AAPL" ≠ "AAPL") ∧
    pyFileLines " AAPL\nAAPL\n" = [" AAPL\n", "AAPL\n"] ∧
    pyStrip " AAPL" = "AAPL" ∧
    (concatenate_and_deduplicate_symbols fsPadded ["nasdaq"]
        "all_symbols.txt").1.allFiles "all_symbols.txt" = some "AAPL\n" :=
  ⟨by decide, by decide, by decide, by decide⟩

/-- C6 (amended): each line is stripped of surrounding whitespace when
read; the combined set then identifies two lines exactly when their
stripped forms are equal as strings (case-sensitively): the output lines
are duplicate-free and contain precisely the stripped lines of the input
files, so case-differing symbols such as `aapl` and `AAPL` both survive. -/
theorem C6_amended :
    (∀ (fs : FS) (exs : List String) (out : String),
      ∃ l,
        (concatenate_and_deduplicate_symbols fs exs out).1.allFiles out =
          some (joinLines l ++ "\n") ∧
        l.Nodup ∧
        (∀ s, s ∈ l ↔ s ∈ gatherSymbols fs exs)) ∧
    (concatenate_and_deduplicate_symbols fsCase ["nasdaq"]
        "all_symbols.txt").1.allFiles "all_symbols.txt" =
      some "AAPL\naapl\n" := by
  constructor
  · intro fs exs out
    exact ⟨sortedDedup (gatherSymbols fs exs), concat_allFiles fs exs out,
      sortedDedup_nodup _, mem_sortedDedup _⟩
  · decide

/-- C7: the claim that every exchange whose fetch succeeded is persisted is
false: `if symbols_data:` tests truthiness, so a successful fetch returning
the empty JSON object `{}` is silently skipped — the batch completes and
nothing at all is persisted for that exchange. -/
theorem C7_counterexample :
    fetch_exchange_symbols netEmptyObj "nasdaq" = some (.obj []) ∧
    (fetch_and_save_all_symbols netEmptyObj emptyFS).2 = none ∧
    (fetch_and_save_all_symbols netEmptyObj emptyFS).1.fullSymbols "nasdaq" =
      none :=
  ⟨rfl, rfl, rfl⟩

/-- C7 (amended): restricted to well-shaped payloads (which are truthy),
the batch iterates exactly the fixed known exchange list
`["nasdaq", "nyse", "amex"]`, persists each exchange whose fetch
succeeded, leaves the files of each exchange whose fetch failed untouched,
and always finishes by merging all known exchanges into the canonical
output `all_symbols.txt`. -/
theorem C7_amended : ∀ (net : String → Except RequestError Json) (fs : FS),
    (∀ e j, net e = .ok j → WellShapedPayload j) →
    list_exchanges = ["nasdaq", "nyse", "amex"] ∧
    (fetch_and_save_all_symbols net fs).2 = none ∧
    (∀ e ∈ exchanges, ∀ (j d : Json) (rows : List Json),
      net e = .ok j → jsonGet j "data" = .ok d →
      jsonGet d "rows" = .ok (.arr rows) →
      (fetch_and_save_all_symbols net fs).1.fullSymbols e =
        some (.val (.arr rows))) ∧
    (∀ (e : String) (err : RequestError), net e = .error err →
      (fetch_and_save_all_symbols net fs).1.fullSymbols e = fs.fullSymbols e ∧
      (fetch_and_save_all_symbols net fs).1.symbolsTxt e = fs.symbolsTxt e) ∧
    (∃ text, (fetch_and_save_all_symbols net fs).1.allFiles "all_symbols.txt" =
      some text) := by
  intro net fs hnet
  cases hl : fetchSaveLoop net fs exchanges with
  | mk fs1 exn =>
    have hok := fetchSaveLoop_ok net hnet exchanges fs
    rw [hl] at hok
    subst hok
    have hrun : fetch_and_save_all_symbols net fs =
        concatenate_and_deduplicate_symbols fs1 exchanges "all_symbols.txt" := by
      unfold fetch_and_save_all_symbols
      rw [hl]
    refine ⟨rfl, ?_, ?_, ?_, ?_⟩
    · rw [hrun]; exact concat_snd fs1 exchanges "all_symbols.txt"
    · intro e he j d rows hn hd hr
      rw [hrun]
      show fs1.fullSymbols e = some (.val (.arr rows))
      have := fetchSaveLoop_persists net hnet exchanges fs e he (by decide)
        j d rows hn hd hr
      rw [hl] at this
      exact this
    · intro e err hn
      rw [hrun]
      have := fetchSaveLoop_failed net exchanges fs e err hn
      rw [hl] at this
      exact this
    · rw [hrun]
      exact ⟨_, concat_allFiles fs1 exchanges "all_symbols.txt"⟩

/-- C7 witness: the amended theorem applied to the oracle whose every
fetch succeeds with the example payload. -/
theorem C7_witness :
    (fetch_and_save_all_symbols netGood emptyFS).2 = none ∧
    (fetch_and_save_all_symbols netGood emptyFS).1.fullSymbols "nasdaq" =
      some (.val (.arr goodRows)) := by
  have hnet : ∀ e j, netGood e = .ok j → WellShapedPayload j := by
    intro e j h
    have hj : j = goodPayload := by
      simpa [netGood] using h.symm
    subst hj
    exact ⟨_, goodRows, ["AAPL", "MSFT"], rfl, rfl, rfl⟩
  have h := C7_amended netGood emptyFS hnet
  exact ⟨h.2.1, h.2.2.1 "nasdaq" (by decide) goodPayload _ goodRows rfl rfl rfl⟩

/-- C8: a missing or unreadable per-exchange file never makes the merge
fail: for every state and request list the merge returns normally, writes
the output file, and what it writes coincides with the merge over just the
available exchanges. -/
theorem C8_merge_skips_missing : ∀ (fs : FS) (exs : List String) (out : String),
    (concatenate_and_deduplicate_symbols fs exs out).2 = none ∧
    ∃ text,
      (concatenate_and_deduplicate_symbols fs exs out).1.allFiles out =
        some text ∧
      (concatenate_and_deduplicate_symbols fs
          (exs.filter fun e => txtAvailable fs e) out).1.allFiles out =
        some text := by
  intro fs exs out
  refine ⟨concat_snd fs exs out,
    joinLines (sortedDedup (gatherSymbols fs exs)) ++ "\n",
    concat_allFiles fs exs out, ?_⟩
  rw [concat_allFiles, gatherSymbols_filter]

/-- C9: whenever the gathered symbol collection is empty (for instance,
every requested file is missing), the merge completes and writes a file
containing exactly one empty line — the single character `\n`. -/
theorem C9_empty_merge : ∀ (fs : FS) (exs : List String) (out : String),
    gatherSymbols fs exs = [] →
    (concatenate_and_deduplicate_symbols fs exs out).2 = none ∧
    (concatenate_and_deduplicate_symbols fs exs out).1.allFiles out =
      some "\n" := by
  intro fs exs out h
  refine ⟨concat_snd fs exs out, ?_⟩
  rw [concat_allFiles, h]
  rfl

/-- C9 witness: merging the known exchanges over the empty filesystem. -/
theorem C9_witness :
    (concatenate_and_deduplicate_symbols emptyFS exchanges
        "all_symbols.txt").2 = none ∧
    (concatenate_and_deduplicate_symbols emptyFS exchanges
        "all_symbols.txt").1.allFiles "all_symbols.txt" = some "\n" :=
  C9_empty_merge emptyFS exchanges "all_symbols.txt" (by decide)

/-- C10: after an empty merge into `all_symbols.txt`, `load_all_symbols`
returns `[""]` — a one-element list holding the empty string, which is
neither the empty list nor the absence signal `none`. -/
theorem C10_empty_merge_load :
    load_all_symbols
        (concatenate_and_deduplicate_symbols emptyFS exchanges
          "all_symbols.txt").1 = some [""] ∧
    (some [""] ≠ some ([] : List String)) ∧
    (some ([""] : List String) ≠ none) ∧
    ([""] : List String).length = 1 :=
  ⟨by decide, by decide, by decide, rfl⟩
